import Mathlib

/-!
Verification of the cube-chess rule engine found in `cubechess.js`.

The source file contains three concatenated variants of the game.  The most
complete one (the third, lines 2006-2939 of the source) provides the
adjacency table, cross-face path walking, move generation, slice rotation
and turn handling; the first variant (lines 1-814) provides the check
detector `isInCheck` and a `makeMove` that recomputes the check flag.  We
embed both: the main `CubeChess` namespace holds the third variant, and
`CubeChess.V1` holds the first.  The second variant's adjacency table and
rotation code are character-for-character identical to the third's.

Machine integers do not occur: all indices are small non-negative array
indices (modelled as `Nat`, with JavaScript's intermediate signed
arithmetic such as `row + dRow` modelled as `Int`).
-/

namespace CubeChess

/-- The six face names, `FACES = ['front','back','right','left','top','bottom']`. -/
inductive Face
  | front | back | right | left | top | bottom
deriving DecidableEq, Repr

/-- The four edge directions used by the adjacency table. -/
inductive Dir
  | up | down | left | right
deriving DecidableEq, Repr

/-- `PIECES = { PAWN, ROOK, KNIGHT, BISHOP, QUEEN, KING }`. -/
inductive PieceType
  | pawn | rook | knight | bishop | queen | king
deriving DecidableEq, Repr

/-- `COLORS = { WHITE, BLACK }`. -/
inductive Color
  | white | black
deriving DecidableEq, Repr

/-- A piece value `{ type, color }`. -/
structure Piece where
  type : PieceType
  color : Color
deriving DecidableEq, Repr

/-- A square coordinate `(face, row, col)`. -/
abbrev Pos := Face × Nat × Nat

/-- The board: each face holds an 8×8 grid of optional pieces
(`gameState.faces`).  Only indices `< 8` correspond to real squares. -/
abbrev Board := Face → Nat → Nat → Option Piece

/-- Read the occupant of a square. -/
def cellAt (b : Board) (p : Pos) : Option Piece :=
  b p.1 p.2.1 p.2.2

/-- The opposite edge direction. -/
def oppositeDir : Dir → Dir
  | .up => .down
  | .down => .up
  | .left => .right
  | .right => .left

/-- The opposite color (`currentTurn === WHITE ? BLACK : WHITE`). -/
def oppositeColor : Color → Color
  | .white => .black
  | .black => .white

/-- `getAdjacentFacePosition` (source lines 2308-2320; identical at
1576-1588): the static adjacency table giving the neighbouring face and
transformed coordinate when moving off an edge.  The JavaScript returns
`null` only when `face` or `direction` is not a key of the table; with the
inductive `Face` and `Dir` every lookup succeeds, so every branch is
`some`. -/
def getAdjacentFacePosition (face : Face) (row col : Nat) (direction : Dir) : Option Pos :=
  match face, direction with
  | .front, .up => some (.top, 7, col)
  | .front, .down => some (.bottom, 0, col)
  | .front, .left => some (.left, row, 7)
  | .front, .right => some (.right, row, 0)
  | .back, .up => some (.top, 0, 7 - col)
  | .back, .down => some (.bottom, 7, 7 - col)
  | .back, .left => some (.right, row, 7)
  | .back, .right => some (.left, row, 0)
  | .right, .up => some (.top, row, 7)
  | .right, .down => some (.bottom, row, 7)
  | .right, .left => some (.front, row, 7)
  | .right, .right => some (.back, row, 7)
  | .left, .up => some (.top, row, 0)
  | .left, .down => some (.bottom, row, 0)
  | .left, .left => some (.back, row, 0)
  | .left, .right => some (.front, row, 0)
  | .top, .up => some (.back, 0, 7 - col)
  | .top, .down => some (.front, 0, col)
  | .top, .left => some (.left, 0, col)
  | .top, .right => some (.right, 0, col)
  | .bottom, .up => some (.front, 7, col)
  | .bottom, .down => some (.back, 7, 7 - col)
  | .bottom, .left => some (.left, 7, col)
  | .bottom, .right => some (.right, 7, col)

/-- Which cells lie on the edge crossed when moving in a given direction
(the "8 edge positions" of a face/direction pair). -/
def onEdge : Dir → Nat → Nat → Bool
  | .up, r, _ => r = 0
  | .down, r, _ => r = 7
  | .left, _, c => c = 0
  | .right, _, c => c = 7

/-- Executable round-trip test: cross out in `d`, then cross out of the
resulting square in the opposite direction, and compare with the start. -/
def roundTripOK (f : Face) (d : Dir) (r c : Nat) : Bool :=
  match getAdjacentFacePosition f r c d with
  | some p =>
    match getAdjacentFacePosition p.1 p.2.1 p.2.2 (oppositeDir d) with
    | some q => q = ((f, r, c) : Pos)
    | none => false
  | none => false

/-- The face/direction pairs whose label-opposite round trip succeeds. -/
def rtGood (f : Face) (d : Dir) : Bool :=
  match f, d with
  | .front, _ => true
  | .right, .left => true
  | .right, .right => true
  | .left, .left => true
  | .left, .right => true
  | .top, .down => true
  | .bottom, .up => true
  | _, _ => false

/-- `getNextPosition` (source lines 2323-2344): one step in direction
`(dRow, dCol)`, staying on the face when the new coordinate is in range
and otherwise crossing to the adjacent face.  The JavaScript computes
`row + dRow` with signed numbers, modelled here as `Int`. -/
def getNextPosition (face : Face) (row col : Nat) (dRow dCol : Int) : Option Pos :=
  if 0 ≤ (row : Int) + dRow ∧ (row : Int) + dRow < 8 ∧
      0 ≤ (col : Int) + dCol ∧ (col : Int) + dCol < 8 then
    some (face, ((row : Int) + dRow).toNat, ((col : Int) + dCol).toNat)
  else if (row : Int) + dRow < 0 then
    getAdjacentFacePosition face row col .up
  else if 8 ≤ (row : Int) + dRow then
    getAdjacentFacePosition face row col .down
  else if (col : Int) + dCol < 0 then
    getAdjacentFacePosition face row col .left
  else if 8 ≤ (col : Int) + dCol then
    getAdjacentFacePosition face row col .right
  else
    none

/-- The loop body of `getPathPositions` (source lines 2347-2374).  `fuel`
is the remaining number of steps (`maxSteps - step`), `cur` the current
position.  The JavaScript re-reads the start square's colour on every
collision, but the board never changes during the walk, so the colour is
passed once as `moverColor`. -/
def getPathAux (b : Board) (moverColor : Color) (dRow dCol : Int) :
    Nat → Pos → List Pos
  | 0, _ => []
  | fuel + 1, cur =>
    match getNextPosition cur.1 cur.2.1 cur.2.2 dRow dCol with
    | none => []
    | some nextPos =>
      match cellAt b nextPos with
      | some p => if p.color ≠ moverColor then [nextPos] else []
      | none => nextPos :: getPathAux b moverColor dRow dCol fuel nextPos

/-- `getPathPositions` (source lines 2347-2374) with the default
`maxSteps = 8` used by every caller.  The JavaScript dereferences the
start square's colour, so the start square is assumed occupied; on an
empty start we return `[]` (the JavaScript would throw, and no caller
passes an empty start). -/
def getPathPositions (b : Board) (startFace : Face) (startRow startCol : Nat)
    (dRow dCol : Int) : List Pos :=
  match b startFace startRow startCol with
  | some sp => getPathAux b sp.color dRow dCol 8 (startFace, startRow, startCol)
  | none => []

/-- The rook's four direction vectors (source lines 2415-2420). -/
def rookDirs : List (Int × Int) := [(-1, 0), (1, 0), (0, -1), (0, 1)]

/-- The bishop's four direction vectors (source lines 2430-2435). -/
def bishopDirs : List (Int × Int) := [(-1, -1), (-1, 1), (1, -1), (1, 1)]

/-- The queen's eight direction vectors (source lines 2445-2448). -/
def queenDirs : List (Int × Int) :=
  [(-1, 0), (1, 0), (0, -1), (0, 1), (-1, -1), (-1, 1), (1, -1), (1, 1)]

/-- The knight's eight offsets (source lines 2458-2461). -/
def knightOffsets : List (Int × Int) :=
  [(-2, -1), (-2, 1), (-1, -2), (-1, 2), (1, -2), (1, 2), (2, -1), (2, 1)]

/-- The king's eight offsets (source lines 2489-2493). -/
def kingOffsets : List (Int × Int) :=
  [(-1, -1), (-1, 0), (-1, 1), (0, -1), (0, 1), (1, -1), (1, 0), (1, 1)]

/-- The shared body of the knight and king cases of `getValidMoves`
(source lines 2463-2483 and 2495-2515, which are textually identical up
to the offset list): a fixed-offset jump, applied on the same face when
in range and through `getNextPosition` otherwise, landing only on empty
or enemy squares. -/
def jumpMoves (b : Board) (face : Face) (row col : Nat) (pc : Piece)
    (offs : List (Int × Int)) : List Pos :=
  offs.flatMap fun od =>
    if 0 ≤ (row : Int) + od.1 ∧ (row : Int) + od.1 < 8 ∧
        0 ≤ (col : Int) + od.2 ∧ (col : Int) + od.2 < 8 then
      match b face ((row : Int) + od.1).toNat ((col : Int) + od.2).toNat with
      | none => [(face, ((row : Int) + od.1).toNat, ((col : Int) + od.2).toNat)]
      | some t =>
        if t.color ≠ pc.color then
          [(face, ((row : Int) + od.1).toNat, ((col : Int) + od.2).toNat)]
        else []
    else
      match getNextPosition face row col od.1 od.2 with
      | some nextPos =>
        match cellAt b nextPos with
        | none => [nextPos]
        | some t => if t.color ≠ pc.color then [nextPos] else []
      | none => []

/-- The pawn case of `getValidMoves` (source lines 2383-2411): a forward
step onto an empty square (crossing an edge when the step leaves the
face), plus same-face diagonal captures. -/
def pawnMoves (b : Board) (face : Face) (row col : Nat) (pc : Piece) : List Pos :=
  let direction : Int := if pc.color = .white then -1 else 1
  let forward : List Pos :=
    if 0 ≤ (row : Int) + direction ∧ (row : Int) + direction < 8 then
      if b face ((row : Int) + direction).toNat col = none then
        [(face, ((row : Int) + direction).toNat, col)]
      else []
    else
      match getAdjacentFacePosition face row col
          (if (row : Int) + direction < 0 then .up else .down) with
      | some adjPos => if cellAt b adjPos = none then [adjPos] else []
      | none => []
  let captures : List Pos :=
    if 0 ≤ (row : Int) + direction ∧ (row : Int) + direction < 8 then
      (if 0 < col then
        match b face ((row : Int) + direction).toNat (col - 1) with
        | some t =>
          if t.color ≠ pc.color then
            [(face, ((row : Int) + direction).toNat, col - 1)]
          else []
        | none => []
      else []) ++
      (if col < 7 then
        match b face ((row : Int) + direction).toNat (col + 1) with
        | some t =>
          if t.color ≠ pc.color then
            [(face, ((row : Int) + direction).toNat, col + 1)]
          else []
        | none => []
      else [])
    else []
  forward ++ captures

/-- `getValidMoves` (source lines 2377-2521): per-piece destination
enumeration with cross-face support and collision detection. -/
def getValidMoves (b : Board) (face : Face) (row col : Nat) : List Pos :=
  match b face row col with
  | none => []
  | some pc =>
    match pc.type with
    | .pawn => pawnMoves b face row col pc
    | .rook => rookDirs.flatMap fun dd => getPathPositions b face row col dd.1 dd.2
    | .bishop => bishopDirs.flatMap fun dd => getPathPositions b face row col dd.1 dd.2
    | .queen => queenDirs.flatMap fun dd => getPathPositions b face row col dd.1 dd.2
    | .knight => jumpMoves b face row col pc knightOffsets
    | .king => jumpMoves b face row col pc kingOffsets

/-- Reading map of `rotateRow` (source lines 2537-2574; identical at
1680-1701): for each target cell, the cell whose pre-rotation occupant
lands there.  Clockwise the source assigns
`right[r] ← front[r]`, `front[r] ← left[r]`, `left[r] ← back[r]`,
`back[r] ← old right[r]`; counter-clockwise the reverse cycle.  The
assignments all read pre-rotation rows (the first is saved in `temp`),
so the sequential JavaScript equals this simultaneous map. -/
def rowSrc (clockwise : Bool) (rowIndex : Nat) (p : Pos) : Pos :=
  if clockwise then
    match p with
    | (.right, i, j) => if i = rowIndex then (.front, i, j) else (.right, i, j)
    | (.front, i, j) => if i = rowIndex then (.left, i, j) else (.front, i, j)
    | (.left, i, j) => if i = rowIndex then (.back, i, j) else (.left, i, j)
    | (.back, i, j) => if i = rowIndex then (.right, i, j) else (.back, i, j)
    | (.top, i, j) => (.top, i, j)
    | (.bottom, i, j) => (.bottom, i, j)
  else
    match p with
    | (.left, i, j) => if i = rowIndex then (.front, i, j) else (.left, i, j)
    | (.front, i, j) => if i = rowIndex then (.right, i, j) else (.front, i, j)
    | (.right, i, j) => if i = rowIndex then (.back, i, j) else (.right, i, j)
    | (.back, i, j) => if i = rowIndex then (.left, i, j) else (.back, i, j)
    | (.top, i, j) => (.top, i, j)
    | (.bottom, i, j) => (.bottom, i, j)

/-- The board permutation performed by `rotateRow` (source lines
2537-2574), with the UI guards (`aiThinking`, animation) and redraw
stripped. -/
def rotateRow (rowIndex : Nat) (clockwise : Bool) (b : Board) : Board :=
  fun f i j => cellAt b (rowSrc clockwise rowIndex (f, i, j))

/-- Reading map of `rotateColumn` (source lines 2576-2613; identical at
1703-1724).  Clockwise the source assigns, for each `i`,
`bottom[i][c] ← front[i][c]`, `front[i][c] ← top[i][c]`,
`top[i][c] ← back[7-i][7-c]`, `back[i][7-c] ← old bottom[7-i][c]`;
counter-clockwise `top[i][c] ← front[i][c]`, `front[i][c] ← bottom[i][c]`,
`bottom[i][c] ← back[7-i][7-c]`, `back[i][7-c] ← old top[7-i][c]`.
Every right-hand side reads a pre-rotation value (`temp` saves the first
column overwritten), so the sequential JavaScript equals this
simultaneous map. -/
def colSrc (clockwise : Bool) (colIndex : Nat) (p : Pos) : Pos :=
  if clockwise then
    match p with
    | (.bottom, i, j) => if j = colIndex then (.front, i, colIndex) else (.bottom, i, j)
    | (.front, i, j) => if j = colIndex then (.top, i, colIndex) else (.front, i, j)
    | (.top, i, j) => if j = colIndex then (.back, 7 - i, 7 - colIndex) else (.top, i, j)
    | (.back, i, j) =>
      if j = 7 - colIndex then (.bottom, 7 - i, colIndex) else (.back, i, j)
    | (.left, i, j) => (.left, i, j)
    | (.right, i, j) => (.right, i, j)
  else
    match p with
    | (.top, i, j) => if j = colIndex then (.front, i, colIndex) else (.top, i, j)
    | (.front, i, j) => if j = colIndex then (.bottom, i, colIndex) else (.front, i, j)
    | (.bottom, i, j) =>
      if j = colIndex then (.back, 7 - i, 7 - colIndex) else (.bottom, i, j)
    | (.back, i, j) => if j = 7 - colIndex then (.top, 7 - i, colIndex) else (.back, i, j)
    | (.left, i, j) => (.left, i, j)
    | (.right, i, j) => (.right, i, j)

/-- The board permutation performed by `rotateColumn` (source lines
2576-2613), with the UI guards and redraw stripped. -/
def rotateColumn (colIndex : Nat) (clockwise : Bool) (b : Board) : Board :=
  fun f i j => cellAt b (colSrc clockwise colIndex (f, i, j))

/-- Overwrite one square (`faces[p.face][p.row][p.col] = v`). -/
def setCell (b : Board) (p : Pos) (v : Option Piece) : Board :=
  fun f i j => if ((f, i, j) : Pos) = p then v else b f i j

/-- The mutable `gameState` fields that the engine logic touches. -/
structure GameState where
  faces : Board
  currentTurn : Color
  selectedSquare : Option Pos
  possibleMoves : List Pos
  inCheck : Bool
  gameOver : Bool
  aiThinking : Bool

/-- `makeMove` of the third variant (source lines 2905-2913): move the
piece, clear nothing else, flip the turn.  The source leaves `inCheck`
untouched (`// TODO: Update inCheck, checkmate, AI move, etc.`). -/
def makeMove (s : GameState) (fromPos toPos : Pos) : GameState :=
  { s with
    faces := setCell (setCell s.faces toPos (cellAt s.faces fromPos)) fromPos none
    currentTurn := oppositeColor s.currentTurn }

/-- `handleSquareClick` of the third variant (source lines 2881-2903). -/
def handleSquareClick (s : GameState) (face : Face) (row col : Nat) : GameState :=
  if s.gameOver || s.aiThinking then s
  else
    match s.selectedSquare with
    | some sel =>
      if ((face, row, col) : Pos) ∈ s.possibleMoves then
        { makeMove s sel (face, row, col) with
          selectedSquare := none
          possibleMoves := [] }
      else
        { s with selectedSquare := none, possibleMoves := [] }
    | none =>
      match s.faces face row col with
      | some pc =>
        if pc.color = s.currentTurn then
          { s with
            selectedSquare := some (face, row, col)
            possibleMoves := getValidMoves s.faces face row col }
        else s
      | none => s

namespace V1

/-- The rook case of the first variant's `getValidMoves` (source lines
358-373): one pass of `i = 0..7`, pushing `(i, col)` and `(row, i)`
whenever the target is empty or an enemy — no blocking. -/
def rookLines (b : Board) (face : Face) (row col : Nat) (pc : Piece) : List Pos :=
  (List.range 8).flatMap fun i =>
    (if i ≠ row then
      match b face i col with
      | none => [((face, i, col) : Pos)]
      | some t => if t.color ≠ pc.color then [((face, i, col) : Pos)] else []
    else []) ++
    (if i ≠ col then
      match b face row i with
      | none => [((face, row, i) : Pos)]
      | some t => if t.color ≠ pc.color then [((face, row, i) : Pos)] else []
    else [])

/-- The bishop case of the first variant's `getValidMoves` (source lines
392-407): for `i = 1..7`, the four diagonal offsets at distance `i`,
bounds-checked — no blocking. -/
def bishopDiags (b : Board) (face : Face) (row col : Nat) (pc : Piece) : List Pos :=
  (List.range 7).flatMap fun i0 =>
    ([((row : Int) + (i0 + 1), (col : Int) + (i0 + 1)),
      ((row : Int) + (i0 + 1), (col : Int) - (i0 + 1)),
      ((row : Int) - (i0 + 1), (col : Int) + (i0 + 1)),
      ((row : Int) - (i0 + 1), (col : Int) - (i0 + 1))] :
        List (Int × Int)).flatMap fun rc =>
      if 0 ≤ rc.1 ∧ rc.1 < 8 ∧ 0 ≤ rc.2 ∧ rc.2 < 8 then
        match b face rc.1.toNat rc.2.toNat with
        | none => [((face, rc.1.toNat, rc.2.toNat) : Pos)]
        | some t =>
          if t.color ≠ pc.color then [((face, rc.1.toNat, rc.2.toNat) : Pos)] else []
      else []

/-- The knight and king cases of the first variant's `getValidMoves`
(source lines 375-390 and 440-456): fixed offsets, same face only. -/
def sameFaceJumps (b : Board) (face : Face) (row col : Nat) (pc : Piece)
    (offs : List (Int × Int)) : List Pos :=
  offs.flatMap fun od =>
    if 0 ≤ (row : Int) + od.1 ∧ (row : Int) + od.1 < 8 ∧
        0 ≤ (col : Int) + od.2 ∧ (col : Int) + od.2 < 8 then
      match b face ((row : Int) + od.1).toNat ((col : Int) + od.2).toNat with
      | none => [((face, ((row : Int) + od.1).toNat, ((col : Int) + od.2).toNat) : Pos)]
      | some t =>
        if t.color ≠ pc.color then
          [((face, ((row : Int) + od.1).toNat, ((col : Int) + od.2).toNat) : Pos)]
        else []
    else []

/-- The pawn case of the first variant's `getValidMoves` (source lines
338-356): same-face forward step onto an empty square plus same-face
diagonal captures — no cross-face continuation. -/
def pawnMovesV1 (b : Board) (face : Face) (row col : Nat) (pc : Piece) : List Pos :=
  let direction : Int := if pc.color = .white then -1 else 1
  (if 0 ≤ (row : Int) + direction ∧ (row : Int) + direction < 8 ∧
      b face ((row : Int) + direction).toNat col = none then
    [((face, ((row : Int) + direction).toNat, col) : Pos)]
  else []) ++
  (if 0 ≤ (row : Int) + direction ∧ (row : Int) + direction < 8 then
    (if 0 < col then
      match b face ((row : Int) + direction).toNat (col - 1) with
      | some t =>
        if t.color ≠ pc.color then
          [((face, ((row : Int) + direction).toNat, col - 1) : Pos)]
        else []
      | none => []
    else []) ++
    (if col < 7 then
      match b face ((row : Int) + direction).toNat (col + 1) with
      | some t =>
        if t.color ≠ pc.color then
          [((face, ((row : Int) + direction).toNat, col + 1) : Pos)]
        else []
      | none => []
    else [])
  else [])

/-- The first variant's `getValidMoves` (source lines 331-460):
same-face-only move generation without blocking for sliders. -/
def getValidMoves (b : Board) (face : Face) (row col : Nat) : List Pos :=
  match b face row col with
  | none => []
  | some pc =>
    match pc.type with
    | .pawn => pawnMovesV1 b face row col pc
    | .rook => rookLines b face row col pc
    | .knight => sameFaceJumps b face row col pc knightOffsets
    | .bishop => bishopDiags b face row col pc
    | .queen => rookLines b face row col pc ++ bishopDiags b face row col pc
    | .king => sameFaceJumps b face row col pc kingOffsets

/-- The scan order of `FACES` (source line 22). -/
def faceList : List Face := [.front, .back, .right, .left, .top, .bottom]

/-- All cells in the triple-loop scan order used by `isInCheck` and
`getAIMove` (faces in `FACES` order, then rows, then columns). -/
def allCells : List Pos :=
  faceList.flatMap fun f =>
    (List.range 8).flatMap fun r =>
      (List.range 8).map fun c => ((f, r, c) : Pos)

/-- The king-locating triple loop of `isInCheck` (source lines 464-477):
the first square in scan order holding the king of the given colour. -/
def kingPos (b : Board) (color : Color) : Option Pos :=
  allCells.find? fun p => cellAt b p = some ⟨.king, color⟩

/-- `isInCheck` (source lines 463-496): false when no king of `color`
exists; otherwise true exactly when some opposing piece's
`getValidMoves` contains the king's square. -/
def isInCheck (b : Board) (color : Color) : Bool :=
  match kingPos b color with
  | none => false
  | some kp =>
    allCells.any fun p =>
      match cellAt b p with
      | some pc =>
        pc.color ≠ color && (getValidMoves b p.1 p.2.1 p.2.2).any fun m => m = kp
      | none => false

/-- The synchronous part of the first variant's `makeMove` (source lines
524-537): move the piece, clear the selection, recompute `inCheck` for
the opponent on the post-move board, and hand the turn to the opponent.
(The asynchronous AI reply scheduled afterwards is UI flow, not part of
the move application itself.) -/
def makeMove (s : GameState) (fromPos toPos : Pos) : GameState :=
  let faces2 := setCell (setCell s.faces toPos (cellAt s.faces fromPos)) fromPos none
  let opponentColor := oppositeColor s.currentTurn
  { s with
    faces := faces2
    selectedSquare := none
    possibleMoves := []
    inCheck := isInCheck faces2 opponentColor
    currentTurn := opponentColor }

end V1

/-- The square reached after `k` steps of `getNextPosition` in a fixed
`(dRow, dCol)` direction (the straight-line walk that `getPathPositions`
follows), with no step bound. -/
def walkN (p : Pos) (dRow dCol : Int) : Nat → Option Pos
  | 0 => some p
  | k + 1 =>
    match getNextPosition p.1 p.2.1 p.2.2 dRow dCol with
    | some q => walkN q dRow dCol k
    | none => none

/-- Follows the spec's words (not the source): `d` is a sliding
destination from `start` in direction `(dRow, dCol)` when it is one of
the consecutive empty squares up to the first occupied square along the
walk, the first occupied square itself being a destination exactly when
its occupant's colour differs from the mover's.  No bound is placed on
the walk's length. -/
def slidingSpecDest (b : Board) (start : Pos) (moverColor : Color)
    (dRow dCol : Int) (d : Pos) : Prop :=
  ∃ k, 1 ≤ k ∧ walkN start dRow dCol k = some d ∧
    (∀ m, 1 ≤ m → m < k → ∀ e, walkN start dRow dCol m = some e → cellAt b e = none) ∧
    (cellAt b d = none ∨ ∃ q, cellAt b d = some q ∧ q.color ≠ moverColor)

/-- The per-piece direction lists of the sliding pieces, as written in
the rook, bishop and queen cases of `getValidMoves`. -/
def slideDirsOf : PieceType → List (Int × Int)
  | .rook => rookDirs
  | .bishop => bishopDirs
  | .queen => queenDirs
  | _ => []

/-- A board that is empty everywhere. -/
def emptyBoard : Board := fun _ _ _ => none

/-- A board holding a single white rook at `front (0,0)`. -/
def rookBoard : Board := fun f i j =>
  if f = .front ∧ i = 0 ∧ j = 0 then some ⟨.rook, .white⟩ else none

/-- A board holding a single white knight at `front (0,0)`. -/
def knightBoard : Board := fun f i j =>
  if f = .front ∧ i = 0 ∧ j = 0 then some ⟨.knight, .white⟩ else none

/-- A board with a black king at `front (0,4)` and a white rook at
`front (7,4)`. -/
def bugBoard : Board := fun f i j =>
  if f = .front ∧ i = 0 ∧ j = 4 then some ⟨.king, .black⟩
  else if f = .front ∧ i = 7 ∧ j = 4 then some ⟨.rook, .white⟩
  else none

/-- A game state over `bugBoard`, white to move, nothing selected. -/
def bugState : GameState :=
  { faces := bugBoard
    currentTurn := .white
    selectedSquare := none
    possibleMoves := []
    inCheck := false
    gameOver := false
    aiThinking := false }

/-- `bugState` with the rook at `(front,7,4)` selected and an empty
move list stored. -/
def bugStateSel : GameState :=
  { bugState with selectedSquare := some (.front, 7, 4) }

/-! ## Theorems -/

/-- C8.  Adjacency totality: for every face, every direction and every
row and column in `[0,7]`, `getAdjacentFacePosition` returns a result
(whose face is one of the six face names by the type of `Pos`) with row
and column again in `[0,7]`.  The `null` branch of the JavaScript is
reachable only when `face` or `direction` is not a key of the table,
i.e. only for malformed arguments, which the inductive `Face` and `Dir`
exclude. -/
theorem adjacency_totality (face : Face) (direction : Dir) (row col : Nat)
    (hr : row < 8) (hc : col < 8) :
    ∃ p : Pos, getAdjacentFacePosition face row col direction = some p ∧
      p.2.1 < 8 ∧ p.2.2 < 8 := by
  cases face <;> cases direction <;>
    refine ⟨_, rfl, ?_, ?_⟩ <;> simp <;> omega

/-- Witness for C8 at `front`, `up`, `(0,0)`. -/
theorem adjacency_totality_witness :
    ∃ p : Pos, getAdjacentFacePosition .front 0 0 .up = some p ∧
      p.2.1 < 8 ∧ p.2.2 < 8 :=
  adjacency_totality .front .up 0 0 (by decide) (by decide)

/-- C1 counterexample.  The claimed round trip fails at the `back` face
going `up` from the edge cell `(0,0)`: crossing lands on `(top, 0, 7)`,
and crossing back `down` from there lands on `(front, 0, 7)`, not on the
original square. -/
theorem adjacency_roundtrip_back_up_counterexample :
    getAdjacentFacePosition .back 0 0 .up = some (.top, 0, 7) ∧
    getAdjacentFacePosition .top 0 7 .down = some (.front, 0, 7) ∧
    roundTripOK .back .up 0 0 = false ∧
    onEdge .up 0 0 = true := by
  decide

/-- C1 as amended.  For an edge cell of `(face, direction)`, the
cross-and-return round trip in the label-opposite direction restores the
original square exactly when `(face, direction)` is one of the ten pairs
of `rtGood` (all four `front` edges, `right`-`left`, `right`-`right`,
`left`-`left`, `left`-`right`, `top`-`down`, `bottom`-`up`); for the
remaining fourteen pairs it fails at every edge cell. -/
theorem adjacency_roundtrip_characterization (f : Face) (d : Dir) :
    ∀ r < 8, ∀ c < 8, onEdge d r c = true →
      roundTripOK f d r c = rtGood f d := by
  cases f <;> cases d <;> decide

/-- Witness for C1's amended theorem at `front`, `up`, `(0,3)`. -/
theorem adjacency_roundtrip_characterization_witness :
    roundTripOK .front .up 0 3 = rtGood .front .up :=
  adjacency_roundtrip_characterization .front .up 0 (by decide) 3 (by decide)
    (by decide)

theorem cellAt_rotateRow (r : Nat) (cw : Bool) (b : Board) (p : Pos) :
    cellAt (rotateRow r cw b) p = cellAt b (rowSrc cw r p) := by
  rcases p with ⟨f, i, j⟩; rfl

theorem cellAt_rotateColumn (c : Nat) (cw : Bool) (b : Board) (p : Pos) :
    cellAt (rotateColumn c cw b) p = cellAt b (colSrc cw c p) := by
  rcases p with ⟨f, i, j⟩; rfl

theorem rowSrc_four (cw : Bool) (f : Face) :
    ∀ r < 8, ∀ i < 8, ∀ j < 8,
      rowSrc cw r (rowSrc cw r (rowSrc cw r (rowSrc cw r (f, i, j)))) = (f, i, j) := by
  cases cw <;> cases f <;> decide

theorem colSrc_four (cw : Bool) (f : Face) :
    ∀ c < 8, ∀ i < 8, ∀ j < 8,
      colSrc cw c (colSrc cw c (colSrc cw c (colSrc cw c (f, i, j)))) = (f, i, j) := by
  cases cw <;> cases f <;> decide

theorem colSrc_inv (f : Face) :
    ∀ c < 8, ∀ i < 8, ∀ j < 8,
      colSrc true c (colSrc false c (f, i, j)) = (f, i, j) := by
  cases f <;> decide

/-- C2.  Rotation periodicity: for every board, every index in `[0,7]`
and both senses, applying the board permutation of `rotateRow` four
times restores every square (row and column in `[0,7]`) of every face to
its pre-rotation occupant, and likewise for `rotateColumn`. -/
theorem rotation_period_four (b : Board) (cw : Bool) :
    ∀ idx < 8, ∀ (f : Face), ∀ i < 8, ∀ j < 8,
      rotateRow idx cw (rotateRow idx cw (rotateRow idx cw (rotateRow idx cw b))) f i j
          = b f i j
      ∧ rotateColumn idx cw
          (rotateColumn idx cw (rotateColumn idx cw (rotateColumn idx cw b))) f i j
          = b f i j := by
  intro idx hidx f i hi j hj
  constructor
  · show cellAt (rotateRow idx cw (rotateRow idx cw (rotateRow idx cw
      (rotateRow idx cw b)))) (f, i, j) = b f i j
    rw [cellAt_rotateRow, cellAt_rotateRow, cellAt_rotateRow, cellAt_rotateRow,
      rowSrc_four cw f idx hidx i hi j hj]
    rfl
  · show cellAt (rotateColumn idx cw (rotateColumn idx cw (rotateColumn idx cw
      (rotateColumn idx cw b)))) (f, i, j) = b f i j
    rw [cellAt_rotateColumn, cellAt_rotateColumn, cellAt_rotateColumn,
      cellAt_rotateColumn, colSrc_four cw f idx hidx i hi j hj]
    rfl

/-- Witness for C2 on `rookBoard` at index 3, clockwise, square
`front (0,0)`. -/
theorem rotation_period_four_witness :
    rotateRow 3 true (rotateRow 3 true (rotateRow 3 true (rotateRow 3 true rookBoard)))
        .front 0 0 = rookBoard .front 0 0
    ∧ rotateColumn 3 true (rotateColumn 3 true (rotateColumn 3 true
        (rotateColumn 3 true rookBoard))) .front 0 0 = rookBoard .front 0 0 :=
  rotation_period_four rookBoard true 3 (by decide) .front 0 (by decide) 0 (by decide)

/-- C4.  Column-rotation back-face reflection: clockwise `rotateColumn c`
moves `front[i][c]` to `bottom[i][c]`, `top[i][c]` to `front[i][c]`,
`back[7-i][7-c]` to `top[i][c]` and `bottom[7-i][c]` to `back[i][7-c]`
(the back face participating at the mirrored column `7-c` with row order
reversed), the counter-clockwise rotation is the corresponding inverse
cycle with the same reflection, and composing the two restores every
valid square. -/
theorem rotateColumn_back_reflection (b : Board) (c i : Nat)
    (hc : c < 8) (hi : i < 8) :
    rotateColumn c true b .bottom i c = b .front i c
    ∧ rotateColumn c true b .front i c = b .top i c
    ∧ rotateColumn c true b .top i c = b .back (7 - i) (7 - c)
    ∧ rotateColumn c true b .back i (7 - c) = b .bottom (7 - i) c
    ∧ rotateColumn c false b .top i c = b .front i c
    ∧ rotateColumn c false b .front i c = b .bottom i c
    ∧ rotateColumn c false b .bottom i c = b .back (7 - i) (7 - c)
    ∧ rotateColumn c false b .back i (7 - c) = b .top (7 - i) c
    ∧ ∀ f : Face, ∀ j < 8,
        rotateColumn c false (rotateColumn c true b) f i j = b f i j := by
  refine ⟨?_, ?_, ?_, ?_, ?_, ?_, ?_, ?_, ?_⟩
  · simp [rotateColumn, colSrc, cellAt]
  · simp [rotateColumn, colSrc, cellAt]
  · simp [rotateColumn, colSrc, cellAt]
  · simp [rotateColumn, colSrc, cellAt]
  · simp [rotateColumn, colSrc, cellAt]
  · simp [rotateColumn, colSrc, cellAt]
  · simp [rotateColumn, colSrc, cellAt]
  · simp [rotateColumn, colSrc, cellAt]
  · intro f j hj
    show cellAt (rotateColumn c false (rotateColumn c true b)) (f, i, j) = b f i j
    rw [cellAt_rotateColumn, cellAt_rotateColumn, colSrc_inv f c hc i hi j hj]
    rfl

/-- Witness for C4 on `rookBoard` at column 2, row 5. -/
theorem rotateColumn_back_reflection_witness :
    rotateColumn 2 true rookBoard .bottom 5 2 = rookBoard .front 5 2
    ∧ rotateColumn 2 true rookBoard .front 5 2 = rookBoard .top 5 2
    ∧ rotateColumn 2 true rookBoard .top 5 2 = rookBoard .back (7 - 5) (7 - 2)
    ∧ rotateColumn 2 true rookBoard .back 5 (7 - 2) = rookBoard .bottom (7 - 5) 2
    ∧ rotateColumn 2 false rookBoard .top 5 2 = rookBoard .front 5 2
    ∧ rotateColumn 2 false rookBoard .front 5 2 = rookBoard .bottom 5 2
    ∧ rotateColumn 2 false rookBoard .bottom 5 2 = rookBoard .back (7 - 5) (7 - 2)
    ∧ rotateColumn 2 false rookBoard .back 5 (7 - 2) = rookBoard .top (7 - 5) 2
    ∧ ∀ f : Face, ∀ j < 8,
        rotateColumn 2 false (rotateColumn 2 true rookBoard) f 5 j = rookBoard f 5 j :=
  rotateColumn_back_reflection rookBoard 2 5 (by decide) (by decide)

/-- C5.  Turn alternation and illegal-move atomicity: with the UI idle
(`gameOver` and `aiThinking` false) and a square selected, a click on a
destination contained in the previously computed `possibleMoves` applies
the move and flips `currentTurn`, while a click on any other square
leaves the board and `currentTurn` unchanged and only clears the
selection. -/
theorem turn_alternation_atomicity (s : GameState) (face : Face) (row col : Nat)
    (sel : Pos) (hgo : s.gameOver = false) (hai : s.aiThinking = false)
    (hsel : s.selectedSquare = some sel) :
    (((face, row, col) : Pos) ∈ s.possibleMoves →
      (handleSquareClick s face row col).currentTurn = oppositeColor s.currentTurn)
    ∧ (((face, row, col) : Pos) ∉ s.possibleMoves →
      (handleSquareClick s face row col).faces = s.faces
      ∧ (handleSquareClick s face row col).currentTurn = s.currentTurn
      ∧ (handleSquareClick s face row col).selectedSquare = none) := by
  constructor
  · intro hm
    simp [handleSquareClick, hgo, hai, hsel, hm, makeMove]
  · intro hm
    simp [handleSquareClick, hgo, hai, hsel, hm]

/-- Witness for C5: on `bugState` with the rook selected, clicking a
square outside the (empty) move list changes nothing but the
selection. -/
theorem turn_alternation_atomicity_witness :
        (((Face.front, 3, 3) : Pos) ∈ bugStateSel.possibleMoves →
      (handleSquareClick bugStateSel .front 3 3).currentTurn
        = oppositeColor bugStateSel.currentTurn)
    ∧ (((Face.front, 3, 3) : Pos) ∉ bugStateSel.possibleMoves →
      (handleSquareClick bugStateSel .front 3 3).faces = bugStateSel.faces
      ∧ (handleSquareClick bugStateSel .front 3 3).currentTurn = bugStateSel.currentTurn
      ∧ (handleSquareClick bugStateSel .front 3 3).selectedSquare = none) :=
  turn_alternation_atomicity bugStateSel .front 3 3 (.front, 7, 4) rfl rfl rfl

/-- C10.  Move-application frame property: for distinct squares,
`makeMove` writes the origin's old occupant to the destination, empties
the origin, and leaves every other square of every face unchanged. -/
theorem makeMove_frame (s : GameState) (p q : Pos) (hpq : p ≠ q) :
    cellAt (makeMove s p q).faces q = cellAt s.faces p
    ∧ cellAt (makeMove s p q).faces p = none
    ∧ ∀ x : Pos, x ≠ p → x ≠ q → cellAt (makeMove s p q).faces x = cellAt s.faces x := by
  refine ⟨?_, ?_, ?_⟩
  · rcases q with ⟨qf, qr, qc⟩
    simp [makeMove, setCell, cellAt, Ne.symm hpq]
  · rcases p with ⟨pf, pr, pc⟩
    simp [makeMove, setCell, cellAt]
  · intro x hxp hxq
    rcases x with ⟨xf, xr, xc⟩
    simp [makeMove, setCell, cellAt, hxp, hxq]

/-- Witness for C10 on `bugState`, moving `(front,7,4)` to
`(front,6,4)`. -/
theorem makeMove_frame_witness :
    cellAt (makeMove bugState (.front, 7, 4) (.front, 6, 4)).faces (.front, 6, 4)
        = cellAt bugState.faces (.front, 7, 4)
    ∧ cellAt (makeMove bugState (.front, 7, 4) (.front, 6, 4)).faces (.front, 7, 4)
        = none
    ∧ ∀ x : Pos, x ≠ (.front, 7, 4) → x ≠ (.front, 6, 4) →
        cellAt (makeMove bugState (.front, 7, 4) (.front, 6, 4)).faces x
          = cellAt bugState.faces x :=
  makeMove_frame bugState (.front, 7, 4) (.front, 6, 4) (by decide)

/-- C6.  The third variant's `makeMove` (source lines 2905-2913) never
recomputes the check flag — `// TODO: Update inCheck` — so after white's
rook move on `bugBoard` puts black in check, the stored `inCheck` is
still `false` although `isInCheck` on the post-move board for the new
active colour (black) is `true`.  The first variant's `makeMove` (source
lines 524-537) does recompute it, as the claim states. -/
theorem makeMove_inCheck_stale :
    (makeMove bugState (.front, 7, 4) (.front, 6, 4)).currentTurn = .black
    ∧ (makeMove bugState (.front, 7, 4) (.front, 6, 4)).inCheck = false
    ∧ V1.isInCheck (makeMove bugState (.front, 7, 4) (.front, 6, 4)).faces .black
        = true := by
  refine ⟨rfl, rfl, ?_⟩
  decide

/-- The first variant's `makeMove` does satisfy the recomputation claim:
the stored flag always equals `isInCheck` of the post-move board for the
new active colour. -/
theorem v1_makeMove_inCheck_recomputed (s : GameState) (p q : Pos) :
    (V1.makeMove s p q).inCheck
      = V1.isInCheck (V1.makeMove s p q).faces (V1.makeMove s p q).currentTurn :=
  rfl

theorem v1_mem_allCells (f : Face) (r c : Nat) :
    ((f, r, c) : Pos) ∈ V1.allCells ↔ r < 8 ∧ c < 8 := by
  cases f <;> simp [V1.allCells, V1.faceList]

theorem v1_kingPos_none (b : Board) (color : Color)
    (h : ∀ f r c, r < 8 → c < 8 → b f r c ≠ some ⟨.king, color⟩) :
    V1.kingPos b color = none := by
  rw [V1.kingPos, List.find?_eq_none]
  intro p hp
  rcases p with ⟨f, r, c⟩
  rcases (v1_mem_allCells f r c).1 hp with ⟨hr, hc⟩
  simpa [cellAt] using h f r c hr hc

/-- C9.  Missing-king degradation: when no king of `color` sits on any
valid square of any face, `isInCheck` returns `false`; when the scan
finds a king of `color`, `isInCheck` returns `true` exactly when some
square holds a piece of the opposing colour whose `getValidMoves`
destinations contain the king's square. -/
theorem isInCheck_spec (b : Board) (color : Color) :
    ((∀ f r c, r < 8 → c < 8 → b f r c ≠ some ⟨.king, color⟩) →
      V1.isInCheck b color = false)
    ∧ (∀ kp, V1.kingPos b color = some kp →
      (V1.isInCheck b color = true ↔
        ∃ f, ∃ r < 8, ∃ c < 8, ∃ pc : Piece, b f r c = some pc ∧ pc.color ≠ color ∧
          kp ∈ V1.getValidMoves b f r c)) := by
  constructor
  · intro h
    rw [V1.isInCheck, v1_kingPos_none b color h]
  · intro kp hkp
    rw [V1.isInCheck, hkp, List.any_eq_true]
    constructor
    · rintro ⟨⟨f, r, c⟩, hp, hpred⟩
      rcases (v1_mem_allCells f r c).1 hp with ⟨hr, hc⟩
      rcases hcell : b f r c with _ | pc
      · rw [show cellAt b (f, r, c) = none from hcell] at hpred
        simp at hpred
      · rw [show cellAt b (f, r, c) = some pc from hcell] at hpred
        simp only [Bool.and_eq_true, decide_eq_true_eq, List.any_eq_true] at hpred
        obtain ⟨hne, m, hm, hmeq⟩ := hpred
        exact ⟨f, r, hr, c, hc, pc, hcell, hne, by
          rwa [show m = kp from by simpa using hmeq] at hm⟩
    · rintro ⟨f, r, hr, c, hc, pc, hcell, hne, hmem⟩
      refine ⟨(f, r, c), (v1_mem_allCells f r c).2 ⟨hr, hc⟩, ?_⟩
      rw [show cellAt b (f, r, c) = some pc from hcell]
      simp only [Bool.and_eq_true, decide_eq_true_eq, List.any_eq_true]
      exact ⟨hne, kp, hmem, by simp⟩

/-- Witness for C9: the empty board holds no white king, so white is not
in check. -/
theorem isInCheck_spec_witness : V1.isInCheck emptyBoard .white = false :=
  (isInCheck_spec emptyBoard .white).1 (fun _ _ _ _ _ h => Option.noConfusion h)

theorem walkN_succ {p q : Pos} {dR dC : Int}
    (h : getNextPosition p.1 p.2.1 p.2.2 dR dC = some q) (k : Nat) :
    walkN p dR dC (k + 1) = walkN q dR dC k := by
  rw [walkN, h]

theorem walkN_succ_none {p : Pos} {dR dC : Int}
    (h : getNextPosition p.1 p.2.1 p.2.2 dR dC = none) (k : Nat) :
    walkN p dR dC (k + 1) = none := by
  rw [walkN, h]

theorem getPathAux_succ_none {b : Board} {mc : Color} {dR dC : Int} {n : Nat}
    {cur : Pos} (hnext : getNextPosition cur.1 cur.2.1 cur.2.2 dR dC = none) :
    getPathAux b mc dR dC (n + 1) cur = [] := by
  rw [getPathAux, hnext]

theorem getPathAux_succ_occupied {b : Board} {mc : Color} {dR dC : Int} {n : Nat}
    {cur nxt : Pos} {p : Piece}
    (hnext : getNextPosition cur.1 cur.2.1 cur.2.2 dR dC = some nxt)
    (hcell : cellAt b nxt = some p) :
    getPathAux b mc dR dC (n + 1) cur = if p.color ≠ mc then [nxt] else [] := by
  rw [getPathAux, hnext]
  dsimp only
  rw [hcell]

theorem getPathAux_succ_empty {b : Board} {mc : Color} {dR dC : Int} {n : Nat}
    {cur nxt : Pos}
    (hnext : getNextPosition cur.1 cur.2.1 cur.2.2 dR dC = some nxt)
    (hcell : cellAt b nxt = none) :
    getPathAux b mc dR dC (n + 1) cur = nxt :: getPathAux b mc dR dC n nxt := by
  rw [getPathAux, hnext]
  dsimp only
  rw [hcell]

/-- Membership in the collision-aware walk of `getPathAux`: `d` is
collected within `fuel` steps exactly when it is reached after some
`k ∈ [1, fuel]` steps of `getNextPosition`, every strictly earlier step
lands on an empty square, and `d` itself is empty or holds an enemy of
the mover. -/
theorem getPathAux_mem_iff (b : Board) (mc : Color) (dR dC : Int) :
    ∀ (fuel : Nat) (cur d : Pos),
      d ∈ getPathAux b mc dR dC fuel cur ↔
        ∃ k, 1 ≤ k ∧ k ≤ fuel ∧ walkN cur dR dC k = some d ∧
          (∀ m, 1 ≤ m → m < k → ∀ e, walkN cur dR dC m = some e → cellAt b e = none) ∧
          (cellAt b d = none ∨ ∃ q, cellAt b d = some q ∧ q.color ≠ mc) := by
  intro fuel
  induction fuel with
  | zero =>
    intro cur d
    simp only [getPathAux, List.not_mem_nil, false_iff]
    rintro ⟨k, hk1, hk0, -⟩
    omega
  | succ n ih =>
    intro cur d
    rcases hnext : getNextPosition cur.1 cur.2.1 cur.2.2 dR dC with _ | nxt
    · rw [getPathAux_succ_none hnext]
      simp only [List.not_mem_nil, false_iff]
      rintro ⟨k, hk1, -, hw, -⟩
      obtain ⟨k', rfl⟩ : ∃ k', k = k' + 1 := ⟨k - 1, by omega⟩
      rw [walkN_succ_none hnext] at hw
      exact Option.noConfusion hw
    · rcases hcell : cellAt b nxt with _ | p
      · -- next square empty: collect it and recurse
        rw [getPathAux_succ_empty hnext hcell]
        simp only [List.mem_cons, ih nxt d]
        constructor
        · rintro (rfl | ⟨k, hk1, hkn, hw, hemp, hlast⟩)
          · exact ⟨1, le_refl 1, by omega, by rw [walkN_succ hnext 0]; rfl,
              fun m hm1 hm2 => by omega, Or.inl hcell⟩
          · refine ⟨k + 1, by omega, by omega, by rwa [walkN_succ hnext], ?_, hlast⟩
            intro m hm1 hm2 e hwe
            obtain ⟨m', rfl⟩ : ∃ m', m = m' + 1 := ⟨m - 1, by omega⟩
            rw [walkN_succ hnext] at hwe
            rcases Nat.eq_zero_or_pos m' with rfl | hm'
            · rw [walkN] at hwe
              cases hwe
              exact hcell
            · exact hemp m' hm' (by omega) e hwe
        · rintro ⟨k, hk1, hkn, hw, hemp, hlast⟩
          obtain ⟨k', rfl⟩ : ∃ k', k = k' + 1 := ⟨k - 1, by omega⟩
          rw [walkN_succ hnext] at hw
          rcases Nat.eq_zero_or_pos k' with rfl | hk'
          · rw [walkN] at hw
            cases hw
            exact Or.inl rfl
          · refine Or.inr ⟨k', hk', by omega, hw, ?_, hlast⟩
            intro m hm1 hm2 e hwe
            exact hemp (m + 1) (by omega) (by omega) e (by rwa [walkN_succ hnext])
      · -- next square occupied: capture-or-stop
        rw [getPathAux_succ_occupied hnext hcell]
        by_cases hpc : p.color = mc
        · simp only [hpc, ne_eq, not_true_eq_false, if_false, List.not_mem_nil, false_iff]
          rintro ⟨k, hk1, hkn, hw, hemp, hlast⟩
          obtain ⟨k', rfl⟩ : ∃ k', k = k' + 1 := ⟨k - 1, by omega⟩
          rw [walkN_succ hnext] at hw
          rcases Nat.eq_zero_or_pos k' with rfl | hk'
          · rw [walkN] at hw
            cases hw
            rcases hlast with hnone | ⟨q, hq, hqne⟩
            · rw [hcell] at hnone
              exact Option.noConfusion hnone
            · rw [hcell] at hq
              cases hq
              exact hqne hpc
          · have h1 := hemp 1 (le_refl 1) (by omega) nxt
              (by rw [walkN_succ hnext 0]; rfl)
            rw [hcell] at h1
            exact Option.noConfusion h1
        · simp only [hpc, ne_eq, not_false_eq_true, if_true, List.mem_singleton]
          constructor
          · rintro rfl
            exact ⟨1, le_refl 1, by omega, by rw [walkN_succ hnext 0]; rfl,
              fun m hm1 hm2 => by omega, Or.inr ⟨p, hcell, hpc⟩⟩
          · rintro ⟨k, hk1, hkn, hw, hemp, hlast⟩
            obtain ⟨k', rfl⟩ : ∃ k', k = k' + 1 := ⟨k - 1, by omega⟩
            rw [walkN_succ hnext] at hw
            rcases Nat.eq_zero_or_pos k' with rfl | hk'
            · rw [walkN] at hw
              cases hw
              rfl
            · have h1 := hemp 1 (le_refl 1) (by omega) nxt
                (by rw [walkN_succ hnext 0]; rfl)
              rw [hcell] at h1
              exact Option.noConfusion h1

/-- C3 as amended.  For a rook, bishop or queen, the destinations of
`getValidMoves` are exactly the squares reached along one of the piece's
directions after `k ∈ [1, 8]` steps of `getNextPosition` — at most eight
steps, the `maxSteps` cap of `getPathPositions` — such that every
strictly earlier step lands on an empty square and the destination
itself is empty or holds an enemy piece.  In particular a square holding
a piece of the mover's own colour is never a destination. -/
theorem sliding_walk_characterization (b : Board) (f : Face) (r c : Nat)
    (pc : Piece) (hpc : b f r c = some pc)
    (ht : pc.type = .rook ∨ pc.type = .bishop ∨ pc.type = .queen) (d : Pos) :
    d ∈ getValidMoves b f r c ↔
      ∃ dd ∈ slideDirsOf pc.type, ∃ k, 1 ≤ k ∧ k ≤ 8 ∧
        walkN (f, r, c) dd.1 dd.2 k = some d ∧
        (∀ m, 1 ≤ m → m < k → ∀ e, walkN (f, r, c) dd.1 dd.2 m = some e →
          cellAt b e = none) ∧
        (cellAt b d = none ∨ ∃ q, cellAt b d = some q ∧ q.color ≠ pc.color) := by
  have hpp : ∀ dd : Int × Int,
      getPathPositions b f r c dd.1 dd.2
        = getPathAux b pc.color dd.1 dd.2 8 (f, r, c) := by
    intro dd
    rw [getPathPositions, hpc]
  have hgv : getValidMoves b f r c
      = (slideDirsOf pc.type).flatMap fun dd => getPathPositions b f r c dd.1 dd.2 := by
    rw [getValidMoves, hpc]
    dsimp only
    rcases ht with h | h | h <;> rw [h] <;> rfl
  rw [hgv]
  simp only [List.mem_flatMap, hpp, getPathAux_mem_iff]

/-- Witness for C3's amended theorem: the characterization instantiated
for the single rook of `rookBoard` at destination `(front, 1, 0)`. -/
theorem sliding_walk_characterization_witness :
    ((Face.front, 1, 0) : Pos) ∈ getValidMoves rookBoard .front 0 0 ↔
      ∃ dd ∈ slideDirsOf PieceType.rook, ∃ k, 1 ≤ k ∧ k ≤ 8 ∧
        walkN ((Face.front, 0, 0) : Pos) dd.1 dd.2 k = some (Face.front, 1, 0) ∧
        (∀ m, 1 ≤ m → m < k → ∀ e,
          walkN ((Face.front, 0, 0) : Pos) dd.1 dd.2 m = some e →
            cellAt rookBoard e = none) ∧
        (cellAt rookBoard (Face.front, 1, 0) = none ∨
          ∃ q, cellAt rookBoard (Face.front, 1, 0) = some q ∧ q.color ≠ Color.white) :=
  sliding_walk_characterization rookBoard .front 0 0 ⟨.rook, .white⟩ (by decide)
    (Or.inl rfl) (Face.front, 1, 0)

/-- C3 counterexample.  The walk is capped at eight steps, so the claim
as stated fails: on `rookBoard` the square `(bottom, 1, 0)` is a
consecutive empty square along the rook's downward line before any
occupied square (it is nine steps away), hence a destination under the
spec's wording, yet `getValidMoves` omits it. -/
theorem sliding_walk_cap_counterexample :
    slidingSpecDest rookBoard (.front, 0, 0) .white 1 0 (.bottom, 1, 0)
    ∧ ((Face.bottom, 1, 0) : Pos) ∉ getValidMoves rookBoard .front 0 0 := by
  constructor
  · have hall : ∀ m < 8,
        ((walkN ((Face.front, 0, 0) : Pos) 1 0 (m + 1)).all
          fun e => cellAt rookBoard e == none) = true := by decide
    refine ⟨9, by omega, by decide, ?_, Or.inl (by decide)⟩
    intro m hm1 hm9 e hw
    have h2 := hall (m - 1) (by omega)
    rw [show m - 1 + 1 = m from by omega, hw] at h2
    simpa [Option.all] using h2
  · decide

/-- C7 counterexample.  The knight case of `getValidMoves` performs
cross-face jumps: the lone knight of `knightBoard` at `front (0,0)` may
move to `(top, 7, 0)`, which is not on its own face. -/
theorem knight_cross_face_counterexample :
    ((Face.top, 7, 0) : Pos) ∈ getValidMoves knightBoard .front 0 0 ∧
    Face.top ≠ Face.front := by
  decide

/-- C7 as amended.  Every destination of a knight is reached by applying
`getNextPosition` to one of the eight L-offsets — on the same face when
the offset stays in range, and on the adjacent face given by the
adjacency table when it exits — and lands on an empty or enemy square.
Knight moves are therefore not same-face-only. -/
theorem knight_moves_characterization (b : Board) (f : Face) (r c : Nat)
    (pc : Piece) (hpc : b f r c = some pc) (ht : pc.type = .knight) :
    ∀ d ∈ getValidMoves b f r c,
      ∃ od ∈ knightOffsets, getNextPosition f r c od.1 od.2 = some d ∧
        (cellAt b d = none ∨ ∃ t, cellAt b d = some t ∧ t.color ≠ pc.color) := by
  intro d hd
  rw [getValidMoves, hpc] at hd
  dsimp only at hd
  rw [ht] at hd
  dsimp only at hd
  simp only [jumpMoves, List.mem_flatMap] at hd
  obtain ⟨od, hod, hmem⟩ := hd
  refine ⟨od, hod, ?_⟩
  by_cases hin : 0 ≤ (r : Int) + od.1 ∧ (r : Int) + od.1 < 8 ∧
      0 ≤ (c : Int) + od.2 ∧ (c : Int) + od.2 < 8
  · rw [if_pos hin] at hmem
    have hnp : getNextPosition f r c od.1 od.2
        = some (f, ((r : Int) + od.1).toNat, ((c : Int) + od.2).toNat) := by
      rw [getNextPosition, if_pos hin]
    rcases hcase : b f ((r : Int) + od.1).toNat ((c : Int) + od.2).toNat with _ | t
    · rw [hcase] at hmem
      simp only [List.mem_singleton] at hmem
      subst hmem
      exact ⟨hnp, Or.inl hcase⟩
    · rw [hcase] at hmem
      by_cases htc : t.color = pc.color
      · simp [htc] at hmem
      · simp only [htc, ne_eq, not_false_eq_true, if_true, List.mem_singleton] at hmem
        subst hmem
        exact ⟨hnp, Or.inr ⟨t, hcase, htc⟩⟩
  · rw [if_neg hin] at hmem
    rcases hnp : getNextPosition f r c od.1 od.2 with _ | np
    · rw [hnp] at hmem
      simp at hmem
    · rw [hnp] at hmem
      dsimp only at hmem
      rcases hcell : cellAt b np with _ | t
      · rw [hcell] at hmem
        simp only [List.mem_singleton] at hmem
        subst hmem
        exact ⟨rfl, Or.inl hcell⟩
      · rw [hcell] at hmem
        by_cases htc : t.color = pc.color
        · simp [htc] at hmem
        · simp only [htc, ne_eq, not_false_eq_true, if_true,
            List.mem_singleton] at hmem
          subst hmem
          exact ⟨rfl, Or.inr ⟨t, hcell, htc⟩⟩

/-- Witness for C7's amended theorem on `knightBoard` at the cross-face
destination `(top, 7, 0)`. -/
theorem knight_moves_characterization_witness :
    ∃ od ∈ knightOffsets, getNextPosition .front 0 0 od.1 od.2 = some (.top, 7, 0) ∧
      (cellAt knightBoard (Face.top, 7, 0) = none ∨
        ∃ t, cellAt knightBoard (Face.top, 7, 0) = some t ∧ t.color ≠ Color.white) :=
  knight_moves_characterization knightBoard .front 0 0 ⟨.knight, .white⟩
    (by decide) rfl (Face.top, 7, 0) (by decide)

end CubeChess
